import Mathlib

/-!
# Verification of the mogptk data-ingestion and channel-modeling layer

A shallow embedding of the data ingestion core: the Formatter registry
(number and date/time formatters plus registered custom formatters), the
`Data` channel entity, the `DataSet` collection, and the table loaders
(`build`, `LoadDataFrame`, `LoadCSV`).  The repository ships this layer as
a library consumed by the example notebook; the definitions below are
modelled from the specification of that layer, faithful to its words, and
the theorems settle the specification's testable properties against them.

Numeric canonical values are modelled as rationals (`ℚ`); date/time values
are structured calendar records converted to a signed count of seconds
since the Unix epoch (1970-01-01), using the proleptic Gregorian calendar.
-/

set_option autoImplicit false

/-- Modelled from the spec: a structured calendar date/time value, the
"already-typed date/time value" a column may carry. -/
structure DateTimeVal where
  year : Nat
  month : Nat
  day : Nat
  hour : Nat
  minute : Nat
  second : Nat
deriving DecidableEq, Repr

/-- Modelled from the spec: a raw table cell is a numeric value, a typed
date/time value, or a textual value (categorical strings, textual dates). -/
inductive RawValue where
  | num (q : ℚ)
  | dt (d : DateTimeVal)
  | text (s : String)
deriving DecidableEq, Repr

/-- Gregorian leap-year rule. -/
def isLeap (y : Nat) : Bool :=
  (y % 4 == 0 && y % 100 != 0) || y % 400 == 0

/-- Length in days of month `m` (1..12) of a (non-)leap year. -/
def monthLength (leap : Bool) (m : Nat) : Nat :=
  match m with
  | 2 => if leap then 29 else 28
  | 4 => 30
  | 6 => 30
  | 9 => 30
  | 11 => 30
  | _ => 31

/-- Days of a (non-)leap year. -/
def yearLengthB (leap : Bool) : Nat :=
  if leap then 366 else 365

/-- Days of year `y`. -/
def yearLength (y : Nat) : Nat :=
  yearLengthB (isLeap y)

/-- Days of the months strictly before month `m` within one year. -/
def daysBeforeMonth (leap : Bool) : Nat → Nat
  | 0 => 0
  | 1 => 0
  | m + 1 => daysBeforeMonth leap m + monthLength leap m

/-- Total days of the `k` consecutive years starting at year `y`. -/
def sumYearLengths (y : Nat) : Nat → Nat
  | 0 => 0
  | k + 1 => yearLength y + sumYearLengths (y + 1) k

/-- Days from 0000-01-01 to the first day of year `y`. -/
def daysBeforeYear (y : Nat) : Nat :=
  sumYearLengths 0 y

/-- Validity of a calendar value: month in 1..12, day within the month,
time-of-day components in range. -/
def DateTimeVal.Valid (d : DateTimeVal) : Bool :=
  1 ≤ d.month && d.month ≤ 12 && 1 ≤ d.day && d.day ≤ monthLength (isLeap d.year) d.month &&
    d.hour < 24 && d.minute < 60 && d.second < 60

/-- Seconds from 0000-01-01 00:00:00 to the calendar value. -/
def DateTimeVal.totalSecs (d : DateTimeVal) : Nat :=
  (daysBeforeYear d.year + daysBeforeMonth (isLeap d.year) d.month + (d.day - 1)) * 86400 +
    (d.hour * 3600 + d.minute * 60 + d.second)

/-- Seconds from 0000-01-01 to the Unix epoch 1970-01-01. -/
def epochSecs : Nat :=
  daysBeforeYear 1970 * 86400

/-- Canonical numeric timestamp of a calendar value: seconds since the
Unix epoch, signed. -/
def DateTimeVal.timestamp (d : DateTimeVal) : ℚ :=
  ((d.totalSecs : ℤ) - (epochSecs : ℤ) : ℤ)

/-- Locate the year containing absolute day `n`, scanning from year `y`;
`fuel` bounds the recursion (any `fuel > n` suffices to reach the answer).
Returns the year and the day-of-year. -/
def findYearAux : Nat → Nat → Nat → Nat × Nat
  | 0, y, n => (y, n)
  | fuel + 1, y, n =>
    if n < yearLength y then (y, n) else findYearAux fuel (y + 1) (n - yearLength y)

/-- Year and day-of-year of absolute day `n` (days since 0000-01-01). -/
def findYear (n : Nat) : Nat × Nat :=
  findYearAux (n + 1) 0 n

/-- Locate the month containing day-of-year `n`, scanning from month `m`;
returns the month and the day-of-month (0-based). -/
def findMonthAux : Nat → Bool → Nat → Nat → Nat × Nat
  | 0, _, m, n => (m, n)
  | fuel + 1, leap, m, n =>
    if n < monthLength leap m then (m, n) else findMonthAux fuel leap (m + 1) (n - monthLength leap m)

/-- Month and 0-based day-of-month of day-of-year `n`. -/
def findMonth (leap : Bool) (n : Nat) : Nat × Nat :=
  findMonthAux 12 leap 1 n

/-- Calendar value of `n` seconds after 0000-01-01 00:00:00. -/
def civilFromSecs (n : Nat) : DateTimeVal :=
  let day := n / 86400
  let rem := n % 86400
  let yr := findYear day
  let mo := findMonth (isLeap yr.1) yr.2
  { year := yr.1, month := mo.1, day := mo.2 + 1,
    hour := rem / 3600, minute := rem % 3600 / 60, second := rem % 60 }

/-- Split a character list on a separator character. -/
def splitChars (sep : Char) : List Char → List (List Char)
  | [] => [[]]
  | c :: cs =>
    let r := splitChars sep cs
    if c == sep then [] :: r
    else
      match r with
      | [] => [[c]]
      | g :: gs => (c :: g) :: gs

/-- Parse a nonempty all-digit character list as a decimal number. -/
def charsToNat? (cs : List Char) : Option Nat :=
  if cs.isEmpty then none
  else if cs.all (fun c => c.isDigit) then
    some (cs.foldl (fun acc c => acc * 10 + (c.toNat - 48)) 0)
  else none

/-- Modelled from the spec: textual date pattern `d-m-Y`, e.g. `25-10-2002`. -/
def parseDatePart (cs : List Char) : Option DateTimeVal :=
  match (splitChars '-' cs).map charsToNat? with
  | [some d, some m, some y] => some ⟨y, m, d, 0, 0, 0⟩
  | _ => none

/-- Modelled from the spec: textual time pattern `H:M:S`, e.g. `15:59:13`. -/
def parseTimePart (cs : List Char) : Option (Nat × Nat × Nat) :=
  match (splitChars ':' cs).map charsToNat? with
  | [some h, some mi, some sec] => some (h, mi, sec)
  | _ => none

/-- Modelled from the spec: the recognized textual date/time patterns,
`25-10-2002` and `25-10-2002 15:59:13`. -/
def parseDateText (s : String) : Option DateTimeVal :=
  match splitChars ' ' s.data with
  | [dpart] => parseDatePart dpart
  | [dpart, tpart] =>
    match parseDatePart dpart, parseTimePart tpart with
    | some d, some t => some { d with hour := t.1, minute := t.2.1, second := t.2.2 }
    | _, _ => none
  | _ => none

/-- Modelled from the spec: a registered custom formatter is a
`{parse, render}` capability pair; registration carries the spec's
formatter invariant (`render` reproduces any value `parse` accepted). -/
structure CustomFormatter where
  parse : RawValue → Option ℚ
  render : ℚ → Option RawValue
  round_trip : ∀ v q, parse v = some q → render q = some v

/-- Modelled from the spec: the Formatter variants — `NumberFormatter`,
`DateTimeFormatter`, and registered custom formatters. -/
inductive Formatter where
  | number
  | dateTime
  | custom (c : CustomFormatter)

/-- Modelled from the spec: `parse(raw_value) → float`.  The number
formatter is an identity pass-through on numeric values and fails on
anything else; the date/time formatter accepts typed date/time values and
the recognized textual patterns and converts them to seconds since the
epoch; a custom formatter applies its registered `parse`. -/
def Formatter.parse : Formatter → RawValue → Option ℚ
  | .number, .num q => some q
  | .number, _ => none
  | .dateTime, .dt d => if d.Valid then some d.timestamp else none
  | .dateTime, .text s =>
    match parseDateText s with
    | some d => if d.Valid then some d.timestamp else none
    | none => none
  | .dateTime, _ => none
  | .custom c, v => c.parse v

/-- Modelled from the spec: `render(float) → display_value`.  The number
formatter renders the number itself; the date/time formatter renders a
whole-second timestamp back to its calendar form; a custom formatter
applies its registered `render`. -/
def Formatter.render : Formatter → ℚ → Option RawValue
  | .number, q => some (.num q)
  | .dateTime, q =>
    if q.den = 1 ∧ 0 ≤ q.num + (epochSecs : ℤ) then
      some (.dt (civilFromSecs (q.num + (epochSecs : ℤ)).toNat))
    else none
  | .custom c, q => c.render q

/-- The supported domain of each formatter: numeric values for the number
formatter, valid typed or textual date/time values for the date/time
formatter, and whatever a custom formatter's `parse` accepts. -/
def Formatter.supports : Formatter → RawValue → Prop
  | .number, v => ∃ q, v = .num q
  | .dateTime, v =>
      (∃ d, v = .dt d ∧ d.Valid = true) ∨
      (∃ s d, v = .text s ∧ parseDateText s = some d ∧ d.Valid = true)
  | .custom c, v => (c.parse v).isSome = true

theorem yearLength_pos (y : Nat) : 0 < yearLength y := by
  unfold yearLength yearLengthB
  split <;> omega

theorem self_le_sumYearLengths (y₀ : Nat) : ∀ k, k ≤ sumYearLengths y₀ k := by
  intro k
  induction k generalizing y₀ with
  | zero => simp [sumYearLengths]
  | succ k ih =>
    have h1 := yearLength_pos y₀
    have h2 := ih (y₀ + 1)
    simp only [sumYearLengths]
    omega

theorem findYearAux_spec :
    ∀ (k y₀ r fuel : Nat), r < yearLength (y₀ + k) → k < fuel →
      findYearAux fuel y₀ (sumYearLengths y₀ k + r) = (y₀ + k, r) := by
  intro k
  induction k with
  | zero =>
    intro y₀ r fuel hr hf
    match fuel with
    | f + 1 =>
      simp only [Nat.add_zero] at hr
      simp [findYearAux, sumYearLengths, hr]
  | succ k ih =>
    intro y₀ r fuel hr hf
    match fuel with
    | f + 1 =>
      have hy := yearLength_pos y₀
      have hsum : sumYearLengths y₀ (k + 1) = yearLength y₀ + sumYearLengths (y₀ + 1) k := rfl
      rw [hsum]
      have hnot : ¬ (yearLength y₀ + sumYearLengths (y₀ + 1) k + r < yearLength y₀) := by omega
      simp only [findYearAux, if_neg hnot]
      have harg : yearLength y₀ + sumYearLengths (y₀ + 1) k + r - yearLength y₀ =
          sumYearLengths (y₀ + 1) k + r := by omega
      rw [harg]
      have hr' : r < yearLength (y₀ + 1 + k) := by
        have : y₀ + 1 + k = y₀ + (k + 1) := by omega
        rw [this]; exact hr
      have := ih (y₀ + 1) r f hr' (by omega)
      rw [this]
      congr 1
      omega

theorem findYear_spec (y r : Nat) (hr : r < yearLength y) :
    findYear (daysBeforeYear y + r) = (y, r) := by
  unfold findYear daysBeforeYear
  have hk : y < sumYearLengths 0 y + r + 1 := by
    have := self_le_sumYearLengths 0 y
    omega
  have := findYearAux_spec y 0 r (sumYearLengths 0 y + r + 1) (by simpa using hr) hk
  simpa using this

theorem findMonthAux_spec :
    ∀ (leap : Bool), ∀ m < 13, ∀ dm < 31, 1 ≤ m → dm < monthLength leap m →
      findMonthAux 12 leap 1 (daysBeforeMonth leap m + dm) = (m, dm) := by decide

theorem dayOfYear_lt :
    ∀ (leap : Bool), ∀ m < 13, ∀ d < 32, 1 ≤ m → 1 ≤ d → d ≤ monthLength leap m →
      daysBeforeMonth leap m + (d - 1) < yearLengthB leap := by decide

theorem monthLength_le (leap : Bool) (m : Nat) : monthLength leap m ≤ 31 := by
  unfold monthLength
  split <;> first | omega | (split <;> omega)

theorem civilFromSecs_totalSecs (d : DateTimeVal) (h : d.Valid = true) :
    civilFromSecs d.totalSecs = d := by
  obtain ⟨y, m, dd, hh, mi, ss⟩ := d
  simp only [DateTimeVal.Valid, Bool.and_eq_true, decide_eq_true_eq] at h
  obtain ⟨⟨⟨⟨⟨⟨hm1, hm2⟩, hd1⟩, hd2⟩, hhh⟩, hmi⟩, hss⟩ := h
  have hml := monthLength_le (isLeap y) m
  have hsod : hh * 3600 + mi * 60 + ss < 86400 := by omega
  unfold DateTimeVal.totalSecs civilFromSecs
  simp only
  have hdiv : ((daysBeforeYear y + daysBeforeMonth (isLeap y) m + (dd - 1)) * 86400 +
      (hh * 3600 + mi * 60 + ss)) / 86400 =
      daysBeforeYear y + daysBeforeMonth (isLeap y) m + (dd - 1) := by omega
  have hmod : ((daysBeforeYear y + daysBeforeMonth (isLeap y) m + (dd - 1)) * 86400 +
      (hh * 3600 + mi * 60 + ss)) % 86400 = hh * 3600 + mi * 60 + ss := by omega
  rw [hdiv, hmod]
  have hdoy : daysBeforeMonth (isLeap y) m + (dd - 1) < yearLength y :=
    dayOfYear_lt (isLeap y) m (by omega) dd (by omega) hm1 hd1 hd2
  have hfy : findYear (daysBeforeYear y + (daysBeforeMonth (isLeap y) m + (dd - 1))) =
      (y, daysBeforeMonth (isLeap y) m + (dd - 1)) := findYear_spec y _ hdoy
  rw [Nat.add_assoc, hfy]
  have hfm : findMonth (isLeap y) (daysBeforeMonth (isLeap y) m + (dd - 1)) = (m, dd - 1) := by
    unfold findMonth
    exact findMonthAux_spec (isLeap y) m (by omega) (dd - 1) (by omega) hm1 (by omega)
  rw [hfm]
  simp only [DateTimeVal.mk.injEq, true_and]
  refine ⟨?_, ?_, ?_, ?_⟩ <;> omega

theorem render_timestamp (d : DateTimeVal) (h : d.Valid = true) :
    Formatter.dateTime.render d.timestamp = some (.dt d) := by
  have hnum : (DateTimeVal.timestamp d).num = (d.totalSecs : ℤ) - (epochSecs : ℤ) := by
    unfold DateTimeVal.timestamp
    exact Rat.num_intCast _
  have hden : (DateTimeVal.timestamp d).den = 1 := by
    unfold DateTimeVal.timestamp
    exact Rat.den_intCast _
  have harg : (DateTimeVal.timestamp d).num + (epochSecs : ℤ) = (d.totalSecs : ℤ) := by
    rw [hnum]; omega
  simp only [Formatter.render]
  rw [if_pos ⟨hden, by omega⟩, harg]
  rw [Int.toNat_natCast]
  rw [civilFromSecs_totalSecs d h]

/-- C2: for every Formatter (number, date/time, and registered custom
formatters) and every value `v` in that formatter's supported domain,
`render (parse v)` reproduces `v`: it succeeds, the rendered value parses
back to the very same canonical number (textual equivalence), and for
numeric values and typed date/time values the rendered value is exactly
`v`. -/
theorem formatter_round_trip (f : Formatter) (v : RawValue) (h : f.supports v) :
    ∃ q w, f.parse v = some q ∧ f.render q = some w ∧ f.parse w = some q ∧
      ((∀ s, v ≠ .text s) → w = v) := by
  cases f with
  | number =>
    obtain ⟨q, rfl⟩ := h
    exact ⟨q, .num q, rfl, rfl, rfl, fun _ => rfl⟩
  | dateTime =>
    rcases h with ⟨d, rfl, hv⟩ | ⟨s, d, rfl, hs, hv⟩
    · refine ⟨d.timestamp, .dt d, ?_, render_timestamp d hv, ?_, fun _ => rfl⟩
      · simp [Formatter.parse, hv]
      · simp [Formatter.parse, hv]
    · refine ⟨d.timestamp, .dt d, ?_, render_timestamp d hv, ?_, ?_⟩
      · simp [Formatter.parse, hs, hv]
      · simp [Formatter.parse, hv]
      · intro hne
        exact absurd rfl (hne s)
  | custom c =>
    obtain ⟨q, hq⟩ := Option.isSome_iff_exists.mp h
    exact ⟨q, v, hq, c.round_trip v q hq, hq, fun _ => rfl⟩

/-- Witness for C2: the date/time formatter round-trips the concrete
calendar value 1971-02-03 04:05:06. -/
theorem formatter_round_trip_witness :
    Formatter.supports .dateTime (.dt ⟨1971, 2, 3, 4, 5, 6⟩) ∧
      ∃ q w, Formatter.parse .dateTime (.dt ⟨1971, 2, 3, 4, 5, 6⟩) = some q ∧
        Formatter.render .dateTime q = some w ∧ Formatter.parse .dateTime w = some q ∧
        ((∀ s, RawValue.dt ⟨1971, 2, 3, 4, 5, 6⟩ ≠ .text s) → w = .dt ⟨1971, 2, 3, 4, 5, 6⟩) :=
  ⟨Or.inl ⟨⟨1971, 2, 3, 4, 5, 6⟩, rfl, by decide⟩,
    formatter_round_trip .dateTime (.dt ⟨1971, 2, 3, 4, 5, 6⟩)
      (Or.inl ⟨⟨1971, 2, 3, 4, 5, 6⟩, rfl, by decide⟩)⟩

/-- Modelled from the spec: the closed set of per-column element-type tags
attached by the external table-loading collaborator. -/
inductive ColType where
  | number
  | dateTime
  | categorical
  | unknown
deriving DecidableEq, Repr

/-- Modelled from the spec: a named column of a rectangular table,
carrying its element-type tag. -/
structure Column where
  name : String
  tag : ColType
  values : List RawValue
deriving DecidableEq, Repr

/-- Modelled from the spec: a rectangular table of named columns, the only
interface required of the external table-loading collaborator. -/
structure Table where
  cols : List Column
deriving DecidableEq, Repr

/-- A column selector: by name or by position. -/
inductive ColSel where
  | byName (s : String)
  | byPos (i : Nat)
deriving DecidableEq, Repr

/-- Number of rows of a table (all columns of a rectangular table agree). -/
def Table.numRows (t : Table) : Nat :=
  match t.cols with
  | [] => 0
  | c :: _ => c.values.length

/-- Rectangularity: every column has the common number of rows. -/
def Table.Rect (t : Table) : Prop :=
  ∀ c ∈ t.cols, c.values.length = t.numRows

/-- Column lookup by name (first match) or by position. -/
def Table.find (t : Table) : ColSel → Option Column
  | .byName s => t.cols.find? (fun c => c.name == s)
  | .byPos i => t.cols.get? i

/-- The error taxonomy of the loading layer. -/
inductive LoadError where
  | columnNotFound (sel : ColSel)
  | emptyData
  | formatError (row : Nat) (v : RawValue)
  | duplicateName (n : String)
  | indexError (i : Nat)
  | keyError (n : String)
deriving DecidableEq, Repr

/-- Does a raw value textually match a recognized date/time pattern, or is
it already date/time-typed? -/
def looksLikeDate : RawValue → Bool
  | .dt _ => true
  | .text s => (parseDateText s).isSome
  | .num _ => false

/-- Modelled from the spec: `infer(column) → Formatter`; date/time-tagged
columns get the date/time formatter, numeric and categorical columns the
number formatter, and an unknown-tagged column gets the date/time
formatter exactly when a strict majority of its raw values match a
recognized date/time pattern (ties default to the number formatter). -/
def inferFormatter (c : Column) : Formatter :=
  match c.tag with
  | .dateTime => .dateTime
  | .number => .number
  | .categorical => .number
  | .unknown =>
    if c.values.length < 2 * c.values.countP looksLikeDate then .dateTime else .number

/-- Modelled from the spec: formatter resolution order is explicit
override → type-based inference → default number formatter. -/
def resolveFormatter (formats : List (String × Formatter)) (c : Column) : Formatter :=
  match formats.lookup c.name with
  | some f => f
  | none => inferFormatter c

/-- Apply `formatter.parse` to each element of a column, numbering rows
from `i`; the first unparseable value aborts the whole column with a
`FormatError` naming the offending row and value. -/
def parseColumnFrom (f : Formatter) (i : Nat) : List RawValue → Except LoadError (List ℚ)
  | [] => .ok []
  | v :: vs =>
    match f.parse v with
    | none => .error (.formatError i v)
    | some q =>
      match parseColumnFrom f (i + 1) vs with
      | .error e => .error e
      | .ok qs => .ok (q :: qs)

/-- Modelled from the spec: `parse_column(column, formatter) →
numeric_sequence`, all-or-nothing. -/
def parse_column (f : Formatter) (vs : List RawValue) : Except LoadError (List ℚ) :=
  parseColumnFrom f 0 vs

/-- Modelled from the spec: the `Data` channel entity — one named output
series `Y` with its input coordinate rows `X`, the per-dimension and
output formatters and axis labels, and the boolean train/test mask. -/
structure Data where
  name : String
  X : List (List ℚ)
  Y : List ℚ
  mask : List Bool
  input_dims : Nat
  x_formatters : List Formatter
  x_labels : List String
  y_formatter : Formatter
  y_label : String

/-- Modelled from the spec: the `DataSet` — an ordered collection of named
channels. -/
structure DataSet where
  channels : List Data

/-- The parallel-length channel invariant together with `input_dims ≥ 1`. -/
def Data.Inv (d : Data) : Prop :=
  d.X.length = d.Y.length ∧ d.Y.length = d.mask.length ∧ 1 ≤ d.input_dims

/-- Row-wise assembly of per-dimension numeric columns into `n` X rows. -/
def transposeN (n : Nat) (cols : List (List ℚ)) : List (List ℚ) :=
  (List.range n).map (fun i => cols.map (fun col => col.getD i 0))

/-- Resolve a list of column selectors against a table, failing with
`ColumnNotFoundError` at the first selector that does not resolve. -/
def resolveCols (t : Table) : List ColSel → Except LoadError (List Column)
  | [] => .ok []
  | s :: ss =>
    match t.find s with
    | none => .error (.columnNotFound s)
    | some c =>
      match resolveCols t ss with
      | .error e => .error e
      | .ok cs => .ok (c :: cs)

/-- Parse every resolved column under its resolved formatter. -/
def parseCols (formats : List (String × Formatter)) : List Column → Except LoadError (List (List ℚ))
  | [] => .ok []
  | c :: cs =>
    match parse_column (resolveFormatter formats c) c.values with
    | .error e => .error e
    | .ok qs =>
      match parseCols formats cs with
      | .error e => .error e
      | .ok qss => .ok (qs :: qss)

/-- Modelled from the spec: `build(table, x_cols, y_col, formatters_override?)
→ Data`.  Resolves the selected columns (`ColumnNotFoundError` on failure),
rejects empty tables (`EmptyDataError`), converts every selected column
under its resolved formatter (all-or-nothing), assembles `X` row-wise,
takes `Y` from the output column, and initializes the mask to
all-training. -/
def build (t : Table) (xsels : List ColSel) (ysel : ColSel)
    (formats : List (String × Formatter)) : Except LoadError Data :=
  match resolveCols t xsels with
  | .error e => .error e
  | .ok xcols =>
    match t.find ysel with
    | none => .error (.columnNotFound ysel)
    | some ycol =>
      if t.numRows = 0 then .error .emptyData
      else
        match parseCols formats xcols with
        | .error e => .error e
        | .ok xvals =>
          match parse_column (resolveFormatter formats ycol) ycol.values with
          | .error e => .error e
          | .ok yvals =>
            .ok { name := ycol.name
                , X := transposeN t.numRows xvals
                , Y := yvals
                , mask := List.replicate t.numRows true
                , input_dims := xsels.length
                , x_formatters := xcols.map (resolveFormatter formats)
                , x_labels := xcols.map Column.name
                , y_formatter := resolveFormatter formats ycol
                , y_label := ycol.name }

/-- Modelled from the spec: `get_names()` — channel names in channel order. -/
def DataSet.get_names (ds : DataSet) : List String :=
  ds.channels.map Data.name

/-- Modelled from the spec: `get_output_dims()` — the number of channels. -/
def DataSet.get_output_dims (ds : DataSet) : Nat :=
  ds.channels.length

/-- Modelled from the spec: `get_input_dims()` — per-channel input
dimensionality, in channel order. -/
def DataSet.get_input_dims (ds : DataSet) : List Nat :=
  ds.channels.map Data.input_dims

/-- Modelled from the spec: append one channel at the end of the channel
list, failing with `DuplicateNameError` on a name collision. -/
def DataSet.appendData (ds : DataSet) (d : Data) : Except LoadError DataSet :=
  if d.name ∈ ds.get_names then .error (.duplicateName d.name)
  else .ok ⟨ds.channels ++ [d]⟩

/-- Append a list of channels one by one, in their existing order. -/
def appendChannels : DataSet → List Data → Except LoadError DataSet
  | ds, [] => .ok ds
  | ds, c :: cs =>
    match ds.appendData c with
    | .error e => .error e
    | .ok ds' => appendChannels ds' cs

/-- Modelled from the spec: append all channels of another `DataSet` in
their existing order, failing with `DuplicateNameError` if any incoming
name collides. -/
def DataSet.appendDataSet (ds other : DataSet) : Except LoadError DataSet :=
  appendChannels ds other.channels

/-- Modelled from the spec: `index_by_position(i) → Data`, failing with
`IndexError` when out of range. -/
def DataSet.index_by_position (ds : DataSet) (i : Nat) : Except LoadError Data :=
  match ds.channels.get? i with
  | some c => .ok c
  | none => .error (.indexError i)

/-- Modelled from the spec: `index_by_name(name) → Data`, failing with
`KeyError` when the name is unknown. -/
def DataSet.index_by_name (ds : DataSet) (n : String) : Except LoadError Data :=
  match ds.channels.find? (fun c => c.name == n) with
  | some c => .ok c
  | none => .error (.keyError n)

/-- Keep the entries of `xs` whose parallel mask bit equals `b`. -/
def maskFilter {α : Type} (b : Bool) : List α → List Bool → List α
  | [], _ => []
  | _, [] => []
  | x :: xs, m :: ms =>
    if m = b then x :: maskFilter b xs ms else maskFilter b xs ms

/-- The training-partition rows of a channel's `X`. -/
def Data.trainX (d : Data) : List (List ℚ) :=
  maskFilter true d.X d.mask

/-- The training-partition values of a channel's `Y`. -/
def Data.trainY (d : Data) : List ℚ :=
  maskFilter true d.Y d.mask

/-- The test-partition rows of a channel's `X`. -/
def Data.testX (d : Data) : List (List ℚ) :=
  maskFilter false d.X d.mask

/-- The test-partition values of a channel's `Y`. -/
def Data.testY (d : Data) : List ℚ :=
  maskFilter false d.Y d.mask

/-- Modelled from the spec: `get_data()` — for every channel the full `X`
and `Y`, regardless of mask, in channel order. -/
def DataSet.get_data (ds : DataSet) : List (List (List ℚ)) × List (List ℚ) :=
  (ds.channels.map Data.X, ds.channels.map Data.Y)

/-- Modelled from the spec: `get_train_data()` — per channel, `X` and `Y`
filtered by the training mask; a channel with no training rows simply
yields empty lists. -/
def DataSet.get_train_data (ds : DataSet) : List (List (List ℚ)) × List (List ℚ) :=
  (ds.channels.map Data.trainX, ds.channels.map Data.trainY)

/-- Modelled from the spec: `get_test_data()` — per channel, `X` and `Y`
filtered by the test mask; a channel with no test rows simply yields
empty lists. -/
def DataSet.get_test_data (ds : DataSet) : List (List (List ℚ)) × List (List ℚ) :=
  (ds.channels.map Data.testX, ds.channels.map Data.testY)

/-- Modelled from the spec: `LoadDataFrame` — build one channel per output
column selector, all sharing `x_cols`, and append them in the given order
to a fresh `DataSet`. -/
def loadChannels (t : Table) (xsels : List ColSel) (formats : List (String × Formatter)) :
    List ColSel → DataSet → Except LoadError DataSet
  | [], ds => .ok ds
  | y :: ys, ds =>
    match build t xsels y formats with
    | .error e => .error e
    | .ok d =>
      match ds.appendData d with
      | .error e => .error e
      | .ok ds' => loadChannels t xsels formats ys ds'

/-- Modelled from the spec: `LoadDataFrame(df, x_col, y_col, formats)`,
with `x_col` defaulting to the first column and `y_col` to the second. -/
def LoadDataFrame (t : Table) (xsels : List ColSel := [.byPos 0])
    (ysels : List ColSel := [.byPos 1])
    (formats : List (String × Formatter) := []) : Except LoadError DataSet :=
  loadChannels t xsels formats ysels ⟨[]⟩

/-- Modelled from the spec: the external table-loading collaborator turns
a delimited file (already split into rows of cells by separator handling,
which is delegated to it) and explicit column names into a rectangular
table, tagging each column by its element types. -/
def readTable (rows : List (List RawValue)) (names : List String) : Table :=
  ⟨(List.range names.length).map (fun i =>
    { name := names.getD i ""
    , tag :=
        if (rows.map (fun r => r.getD i (.text ""))).all (fun v => match v with | .num _ => true | _ => false)
          then .number
        else if (rows.map (fun r => r.getD i (.text ""))).all (fun v => match v with | .dt _ => true | _ => false)
          then .dateTime
        else .unknown
    , values := rows.map (fun r => r.getD i (.text "")) })⟩

/-- Modelled from the spec: `LoadCSV(filename, names, sep)` — delegate the
delimited-file reading to the table-loading collaborator, then select the
first column as the input dimension and the second as the output channel
and build that single channel into a fresh `DataSet`. -/
def LoadCSV (rows : List (List RawValue)) (names : List String)
    (formats : List (String × Formatter) := []) : Except LoadError DataSet :=
  match build (readTable rows names) [.byPos 0] (.byPos 1) formats with
  | .error e => .error e
  | .ok d => .ok ⟨[d]⟩

theorem parseColumnFrom_length (f : Formatter) :
    ∀ (vs : List RawValue) (i : Nat) (qs : List ℚ),
      parseColumnFrom f i vs = .ok qs → qs.length = vs.length := by
  intro vs
  induction vs with
  | nil =>
    intro i qs h
    simp only [parseColumnFrom] at h
    cases h
    rfl
  | cons v vs ih =>
    intro i qs h
    simp only [parseColumnFrom] at h
    cases hp : Formatter.parse f v with
    | none => rw [hp] at h; cases h
    | some q =>
      rw [hp] at h
      cases hr : parseColumnFrom f (i + 1) vs with
      | error e => rw [hr] at h; cases h
      | ok qs' =>
        rw [hr] at h
        cases h
        simp [ih (i + 1) qs' hr]

theorem parse_column_length (f : Formatter) (vs : List RawValue) (qs : List ℚ)
    (h : parse_column f vs = .ok qs) : qs.length = vs.length :=
  parseColumnFrom_length f vs 0 qs h

theorem parseColumnFrom_ok (f : Formatter) :
    ∀ (vs : List RawValue) (i : Nat), (∀ v ∈ vs, (f.parse v).isSome = true) →
      ∃ qs, parseColumnFrom f i vs = .ok qs ∧
        List.Forall₂ (fun v q => f.parse v = some q) vs qs := by
  intro vs
  induction vs with
  | nil => exact fun i _ => ⟨[], rfl, List.Forall₂.nil⟩
  | cons v vs ih =>
    intro i h
    obtain ⟨q, hq⟩ := Option.isSome_iff_exists.mp (h v (List.mem_cons_self v vs))
    obtain ⟨qs, hqs, hall⟩ := ih (i + 1) (fun w hw => h w (List.mem_cons_of_mem v hw))
    refine ⟨q :: qs, ?_, List.Forall₂.cons hq hall⟩
    simp only [parseColumnFrom, hq, hqs]

theorem parseColumnFrom_err (f : Formatter) :
    ∀ (vs : List RawValue) (k i : Nat) (v : RawValue),
      vs.get? i = some v → f.parse v = none →
      (∀ j < i, ∀ w, vs.get? j = some w → (f.parse w).isSome = true) →
      parseColumnFrom f k vs = .error (.formatError (k + i) v) := by
  intro vs
  induction vs with
  | nil => intro k i v hv; simp at hv
  | cons u vs ih =>
    intro k i v hv hnone hfirst
    cases i with
    | zero =>
      simp only [List.get?] at hv
      cases hv
      simp only [parseColumnFrom, hnone, Nat.add_zero]
    | succ i =>
      have hu : (f.parse u).isSome = true := hfirst 0 (Nat.succ_pos i) u rfl
      obtain ⟨q, hq⟩ := Option.isSome_iff_exists.mp hu
      have hrec := ih (k + 1) i v hv hnone
        (fun j hj w hw => hfirst (j + 1) (Nat.succ_lt_succ hj) w hw)
      simp only [parseColumnFrom, hq, hrec]
      congr 1
      congr 1
      omega

theorem maskFilter_zip {α β : Type} (b : Bool) :
    ∀ (xs : List α) (ys : List β) (ms : List Bool), xs.length = ys.length →
      maskFilter b (xs.zip ys) ms = (maskFilter b xs ms).zip (maskFilter b ys ms) := by
  intro xs
  induction xs with
  | nil => intro ys ms _; cases ms <;> simp [maskFilter]
  | cons x xs ih =>
    intro ys ms hlen
    cases ys with
    | nil => simp at hlen
    | cons y ys =>
      cases ms with
      | nil => simp [maskFilter]
      | cons m ms =>
        simp only [List.zip_cons_cons, maskFilter]
        by_cases hm : m = b
        · rw [if_pos hm, if_pos hm, if_pos hm, List.zip_cons_cons]
          exact congrArg _ (ih ys ms (by simpa using hlen))
        · rw [if_neg hm, if_neg hm, if_neg hm]
          exact ih ys ms (by simpa using hlen)

theorem maskFilter_perm {α : Type} :
    ∀ (l : List α) (ms : List Bool), l.length = ms.length →
      (maskFilter true l ms ++ maskFilter false l ms).Perm l := by
  intro l
  induction l with
  | nil => intro ms _; simp [maskFilter]
  | cons x xs ih =>
    intro ms hlen
    cases ms with
    | nil => simp at hlen
    | cons m ms =>
      have hrec := ih ms (by simpa using hlen)
      cases m with
      | true =>
        simp only [maskFilter, if_pos rfl, if_neg (by simp : ¬ (true = false))]
        simpa using hrec.cons x
      | false =>
        simp only [maskFilter, if_pos rfl, if_neg (by simp : ¬ (false = true))]
        exact List.perm_middle.trans (hrec.cons x)

theorem maskFilter_allFalse {α : Type} :
    ∀ (l : List α) (ms : List Bool), (∀ m ∈ ms, m = false) →
      maskFilter true l ms = [] := by
  intro l
  induction l with
  | nil => intro ms _; cases ms <;> simp [maskFilter]
  | cons x xs ih =>
    intro ms hms
    cases ms with
    | nil => simp [maskFilter]
    | cons m ms =>
      have hm : m = false := hms m (List.mem_cons_self m ms)
      simp only [maskFilter, hm]
      simpa using ih ms (fun w hw => hms w (List.mem_cons_of_mem m hw))

theorem maskFilter_length_le {α : Type} (b : Bool) :
    ∀ (l : List α) (ms : List Bool), (maskFilter b l ms).length ≤ l.length := by
  intro l
  induction l with
  | nil => intro ms; cases ms <;> simp [maskFilter]
  | cons x xs ih =>
    intro ms
    cases ms with
    | nil => simp [maskFilter]
    | cons m ms =>
      simp only [maskFilter]
      by_cases hm : m = b
      · simpa [hm] using ih ms
      · simp only [if_neg hm]
        exact (ih ms).trans (Nat.le_succ _)

theorem Table.find_mem (t : Table) (sel : ColSel) (c : Column) (h : t.find sel = some c) :
    c ∈ t.cols := by
  cases sel with
  | byName s => exact List.mem_of_find?_eq_some h
  | byPos i => exact List.get?_mem h

theorem resolveCols_ok (t : Table) :
    ∀ (sels : List ColSel), (∀ s ∈ sels, (t.find s).isSome = true) →
      ∃ cs, resolveCols t sels = .ok cs ∧
        List.Forall₂ (fun s c => t.find s = some c) sels cs := by
  intro sels
  induction sels with
  | nil => exact fun _ => ⟨[], rfl, List.Forall₂.nil⟩
  | cons s ss ih =>
    intro h
    obtain ⟨c, hc⟩ := Option.isSome_iff_exists.mp (h s (List.mem_cons_self s ss))
    obtain ⟨cs, hcs, hall⟩ := ih (fun w hw => h w (List.mem_cons_of_mem s hw))
    exact ⟨c :: cs, by simp only [resolveCols, hc, hcs], List.Forall₂.cons hc hall⟩

theorem resolveCols_err (t : Table) :
    ∀ (sels : List ColSel), (∃ s ∈ sels, t.find s = none) →
      ∃ s, t.find s = none ∧ resolveCols t sels = .error (.columnNotFound s) := by
  intro sels
  induction sels with
  | nil => simp
  | cons s ss ih =>
    intro h
    cases hs : t.find s with
    | none => exact ⟨s, hs, by simp only [resolveCols, hs]⟩
    | some c =>
      have hss : ∃ w ∈ ss, t.find w = none := by
        obtain ⟨w, hw, hwn⟩ := h
        rcases List.mem_cons.mp hw with rfl | hw'
        · rw [hs] at hwn; cases hwn
        · exact ⟨w, hw', hwn⟩
      obtain ⟨w, hwn, hws⟩ := ih hss
      exact ⟨w, hwn, by simp only [resolveCols, hs, hws]⟩

theorem resolveCols_mem (t : Table) :
    ∀ (sels : List ColSel) (cs : List Column), resolveCols t sels = .ok cs →
      ∀ c ∈ cs, ∃ s ∈ sels, t.find s = some c := by
  intro sels
  induction sels with
  | nil =>
    intro cs h
    cases h
    simp
  | cons s ss ih =>
    intro cs h c hc
    simp only [resolveCols] at h
    cases hs : t.find s with
    | none => rw [hs] at h; cases h
    | some c0 =>
      rw [hs] at h
      cases hr : resolveCols t ss with
      | error e => rw [hr] at h; cases h
      | ok cs' =>
        rw [hr] at h
        cases h
        rcases List.mem_cons.mp hc with rfl | hc'
        · exact ⟨s, List.mem_cons_self s ss, hs⟩
        · obtain ⟨w, hw, hwc⟩ := ih cs' hr c hc'
          exact ⟨w, List.mem_cons_of_mem s hw, hwc⟩

theorem parseCols_ok (formats : List (String × Formatter)) :
    ∀ (cs : List Column),
      (∀ c ∈ cs, ∀ v ∈ c.values, ((resolveFormatter formats c).parse v).isSome = true) →
      ∃ qss, parseCols formats cs = .ok qss := by
  intro cs
  induction cs with
  | nil => exact fun _ => ⟨[], rfl⟩
  | cons c cs ih =>
    intro h
    obtain ⟨qs, hqs, _⟩ :=
      parseColumnFrom_ok (resolveFormatter formats c) c.values 0
        (h c (List.mem_cons_self c cs))
    obtain ⟨qss, hqss⟩ := ih (fun w hw => h w (List.mem_cons_of_mem c hw))
    exact ⟨qs :: qss, by simp only [parseCols, parse_column, hqs, hqss]⟩

theorem build_resolve_err (t : Table) (xsels : List ColSel) (ysel : ColSel)
    (formats : List (String × Formatter)) (e : LoadError)
    (herr : resolveCols t xsels = .error e) :
    build t xsels ysel formats = .error e := by
  unfold build
  rw [herr]

theorem build_yfind_none (t : Table) (xsels : List ColSel) (ysel : ColSel)
    (formats : List (String × Formatter)) (xcols : List Column)
    (hres : resolveCols t xsels = .ok xcols) (hy : t.find ysel = none) :
    build t xsels ysel formats = .error (.columnNotFound ysel) := by
  unfold build
  rw [hres, hy]

theorem build_empty (t : Table) (xsels : List ColSel) (ysel : ColSel)
    (formats : List (String × Formatter)) (xcols : List Column) (ycol : Column)
    (hres : resolveCols t xsels = .ok xcols) (hy : t.find ysel = some ycol)
    (hn : t.numRows = 0) :
    build t xsels ysel formats = .error .emptyData := by
  unfold build
  rw [hres, hy]
  dsimp only
  exact if_pos hn

theorem build_ok_intro (t : Table) (xsels : List ColSel) (ysel : ColSel)
    (formats : List (String × Formatter)) (xcols : List Column) (ycol : Column)
    (xvals : List (List ℚ)) (yvals : List ℚ)
    (hres : resolveCols t xsels = .ok xcols) (hy : t.find ysel = some ycol)
    (hn : t.numRows ≠ 0) (hpx : parseCols formats xcols = .ok xvals)
    (hpy : parse_column (resolveFormatter formats ycol) ycol.values = .ok yvals) :
    build t xsels ysel formats =
      .ok { name := ycol.name
          , X := transposeN t.numRows xvals
          , Y := yvals
          , mask := List.replicate t.numRows true
          , input_dims := xsels.length
          , x_formatters := xcols.map (resolveFormatter formats)
          , x_labels := xcols.map Column.name
          , y_formatter := resolveFormatter formats ycol
          , y_label := ycol.name } := by
  unfold build
  rw [hres, hy]
  dsimp only
  rw [if_neg hn, hpx, hpy]

theorem build_ok_elim (t : Table) (xsels : List ColSel) (ysel : ColSel)
    (formats : List (String × Formatter)) (d : Data)
    (hb : build t xsels ysel formats = .ok d) :
    ∃ xcols ycol xvals yvals,
      resolveCols t xsels = .ok xcols ∧ t.find ysel = some ycol ∧ t.numRows ≠ 0 ∧
      parseCols formats xcols = .ok xvals ∧
      parse_column (resolveFormatter formats ycol) ycol.values = .ok yvals ∧
      d = { name := ycol.name
          , X := transposeN t.numRows xvals
          , Y := yvals
          , mask := List.replicate t.numRows true
          , input_dims := xsels.length
          , x_formatters := xcols.map (resolveFormatter formats)
          , x_labels := xcols.map Column.name
          , y_formatter := resolveFormatter formats ycol
          , y_label := ycol.name } := by
  unfold build at hb
  cases hres : resolveCols t xsels with
  | error e => rw [hres] at hb; cases hb
  | ok xcols =>
    rw [hres] at hb
    cases hy : t.find ysel with
    | none => rw [hy] at hb; cases hb
    | some ycol =>
      rw [hy] at hb
      dsimp only at hb
      by_cases hn : t.numRows = 0
      · rw [if_pos hn] at hb; cases hb
      · rw [if_neg hn] at hb
        cases hpx : parseCols formats xcols with
        | error e => rw [hpx] at hb; cases hb
        | ok xvals =>
          rw [hpx] at hb
          cases hpy : parse_column (resolveFormatter formats ycol) ycol.values with
          | error e => rw [hpy] at hb; cases hb
          | ok yvals =>
            rw [hpy] at hb
            cases hb
            exact ⟨xcols, ycol, xvals, yvals, rfl, rfl, hn, hpx, hpy, rfl⟩

/-- C1: a channel built from a valid (rectangular) table with at least one
input column satisfies `len X = len Y = len mask` and `input_dims ≥ 1`,
and after any successful append of that channel into a dataset whose
channels all satisfy the invariant, every channel of the resulting
dataset still satisfies it. -/
theorem channel_parallel_invariant (t : Table) (xsels : List ColSel) (ysel : ColSel)
    (formats : List (String × Formatter)) (d : Data) (ds ds' : DataSet)
    (hrect : t.Rect) (hx : xsels ≠ [])
    (hb : build t xsels ysel formats = .ok d)
    (happ : ds.appendData d = .ok ds')
    (hds : ∀ c ∈ ds.channels, c.Inv) :
    d.Inv ∧ ∀ c ∈ ds'.channels, c.Inv := by
  obtain ⟨xcols, ycol, xvals, yvals, hres, hy, hn, hpx, hpy, hd⟩ :=
    build_ok_elim t xsels ysel formats d hb
  have hycol : ycol ∈ t.cols := t.find_mem ysel ycol hy
  have hylen : yvals.length = t.numRows := by
    rw [parse_column_length _ _ _ hpy]
    exact hrect ycol hycol
  have hdInv : d.Inv := by
    rw [hd]
    refine ⟨?_, ?_, ?_⟩
    · simp [transposeN, hylen]
    · simp [hylen]
    · simpa [Nat.one_le_iff_ne_zero, List.length_eq_zero] using hx
  refine ⟨hdInv, ?_⟩
  intro c hc
  by_cases hdup : d.name ∈ ds.get_names
  · rw [DataSet.appendData, if_pos hdup] at happ
    cases happ
  · rw [DataSet.appendData, if_neg hdup] at happ
    cases happ
    rcases List.mem_append.mp hc with hcl | hcr
    · exact hds c hcl
    · rw [List.mem_singleton.mp hcr]
      exact hdInv

/-- Witness for C1: a concrete two-column numeric table, built and
appended into an empty dataset. -/
theorem channel_parallel_invariant_witness :
    ∃ d ds',
      build ⟨[⟨"t", .number, [.num 0, .num 1]⟩, ⟨"p", .number, [.num 112, .num 118]⟩]⟩
          [.byPos 0] (.byPos 1) [] = .ok d ∧
      DataSet.appendData ⟨[]⟩ d = .ok ds' ∧ (d.Inv ∧ ∀ c ∈ ds'.channels, c.Inv) := by
  obtain ⟨d, hb⟩ : ∃ d, build ⟨[⟨"t", .number, [.num 0, .num 1]⟩,
      ⟨"p", .number, [.num 112, .num 118]⟩]⟩ [.byPos 0] (.byPos 1) [] = .ok d := ⟨_, rfl⟩
  obtain ⟨ds', happ⟩ : ∃ ds', DataSet.appendData ⟨[]⟩ d = .ok ds' := ⟨_, rfl⟩
  exact ⟨d, ds', hb, happ,
    channel_parallel_invariant _ _ _ _ _ _ _ (by unfold Table.Rect; decide) (by decide)
      hb happ (by simp)⟩

/-- C3: per channel, the train rows and the test rows together are exactly
the full rows (no overlap, no omission, as a permutation of `(X, Y)`
pairs); the per-channel train/test/full lists are what the dataset-level
accessors return; and an all-test mask yields empty training lists rather
than an error. -/
theorem train_test_partition (ds : DataSet) (c : Data) (hc : c ∈ ds.channels)
    (h1 : c.X.length = c.mask.length) (h2 : c.Y.length = c.mask.length) :
    ((c.trainX.zip c.trainY) ++ (c.testX.zip c.testY)).Perm (c.X.zip c.Y) ∧
      (c.trainX ∈ ds.get_train_data.1 ∧ c.trainY ∈ ds.get_train_data.2 ∧
        c.testX ∈ ds.get_test_data.1 ∧ c.testY ∈ ds.get_test_data.2 ∧
        c.X ∈ ds.get_data.1 ∧ c.Y ∈ ds.get_data.2) ∧
      ((∀ b ∈ c.mask, b = false) → c.trainX = [] ∧ c.trainY = []) := by
  have hXY : c.X.length = c.Y.length := by omega
  refine ⟨?_, ?_, ?_⟩
  · show ((maskFilter true c.X c.mask).zip (maskFilter true c.Y c.mask) ++
        (maskFilter false c.X c.mask).zip (maskFilter false c.Y c.mask)).Perm (c.X.zip c.Y)
    rw [← maskFilter_zip true c.X c.Y c.mask hXY, ← maskFilter_zip false c.X c.Y c.mask hXY]
    apply maskFilter_perm
    rw [List.length_zip]
    omega
  · exact ⟨List.mem_map_of_mem Data.trainX hc, List.mem_map_of_mem Data.trainY hc,
      List.mem_map_of_mem Data.testX hc, List.mem_map_of_mem Data.testY hc,
      List.mem_map_of_mem Data.X hc, List.mem_map_of_mem Data.Y hc⟩
  · intro hall
    exact ⟨maskFilter_allFalse c.X c.mask hall, maskFilter_allFalse c.Y c.mask hall⟩

/-- A concrete three-row channel with a mixed mask. -/
def sampleChannel : Data :=
  ⟨"a", [[0], [1], [2]], [10, 20, 30], [true, false, true], 1, [.number], ["x"], .number, "a"⟩

/-- Witness for C3: the concrete three-row channel with a mixed mask. -/
theorem train_test_partition_witness :
    ∃ (c : Data) (ds : DataSet), c ∈ ds.channels ∧
      c.X.length = c.mask.length ∧ c.Y.length = c.mask.length ∧
      ((c.trainX.zip c.trainY) ++ (c.testX.zip c.testY)).Perm (c.X.zip c.Y) := by
  refine ⟨sampleChannel, ⟨[sampleChannel]⟩, List.mem_cons_self sampleChannel [],
    by decide, by decide, ?_⟩
  exact (train_test_partition ⟨[sampleChannel]⟩ sampleChannel
    (List.mem_cons_self sampleChannel []) (by decide) (by decide)).1

theorem appendChannels_dup :
    ∀ (cs : List Data) (ds : DataSet) (d : Data), d ∈ cs → d.name ∈ ds.get_names →
      ∃ n, appendChannels ds cs = .error (.duplicateName n) := by
  intro cs
  induction cs with
  | nil => intro ds d hd; cases hd
  | cons c cs ih =>
    intro ds d hd hn
    by_cases hc : c.name ∈ ds.get_names
    · exact ⟨c.name, by simp only [appendChannels, DataSet.appendData, if_pos hc]⟩
    · have hok : ds.appendData c = .ok ⟨ds.channels ++ [c]⟩ := by
        rw [DataSet.appendData, if_neg hc]
      rcases List.mem_cons.mp hd with rfl | hd'
      · exact absurd hn hc
      · have hn' : d.name ∈ DataSet.get_names ⟨ds.channels ++ [c]⟩ := by
          simp only [DataSet.get_names, List.map_append]
          exact List.mem_append_left _ hn
        obtain ⟨n, hres⟩ := ih ⟨ds.channels ++ [c]⟩ d hd' hn'
        exact ⟨n, by simp only [appendChannels, hok, hres]⟩

/-- C4: appending a channel whose name duplicates an existing channel name
fails with `DuplicateNameError`, and appending a dataset containing such a
channel fails with `DuplicateNameError` as well; the target dataset value
is untouched (append is a pure function of the dataset). -/
theorem append_duplicate_rejected (ds other : DataSet) (d : Data) :
    (d.name ∈ ds.get_names → ds.appendData d = .error (.duplicateName d.name)) ∧
      (d ∈ other.channels → d.name ∈ ds.get_names →
        ∃ n, ds.appendDataSet other = .error (.duplicateName n)) := by
  constructor
  · intro hn
    rw [DataSet.appendData, if_pos hn]
  · intro hd hn
    exact appendChannels_dup other.channels ds d hd hn

/-- Witness for C4: appending the sample channel to a dataset already
holding a channel of the same name. -/
theorem append_duplicate_rejected_witness :
    (sampleChannel.name ∈ DataSet.get_names ⟨[sampleChannel]⟩) ∧
      DataSet.appendData ⟨[sampleChannel]⟩ sampleChannel =
        .error (.duplicateName sampleChannel.name) ∧
      ∃ n, DataSet.appendDataSet ⟨[sampleChannel]⟩ ⟨[sampleChannel]⟩ =
        .error (.duplicateName n) := by
  have hmem : sampleChannel.name ∈ DataSet.get_names ⟨[sampleChannel]⟩ := by decide
  exact ⟨hmem,
    (append_duplicate_rejected ⟨[sampleChannel]⟩ ⟨[sampleChannel]⟩ sampleChannel).1 hmem,
    (append_duplicate_rejected ⟨[sampleChannel]⟩ ⟨[sampleChannel]⟩ sampleChannel).2
      (List.mem_cons_self _ _) hmem⟩

/-- C5: appending a dataset with channels named `c`, `d` to a dataset with
channels named `a`, `b` succeeds, keeps the existing channels in place,
and appends the incoming channels in their existing order, so that
`get_names` returns `[a, b, c, d]`. -/
theorem append_dataset_order (ca cb cc cd : Data)
    (ha : ca.name = "a") (hb : cb.name = "b") (hc : cc.name = "c") (hd : cd.name = "d") :
    DataSet.appendDataSet ⟨[ca, cb]⟩ ⟨[cc, cd]⟩ = .ok ⟨[ca, cb, cc, cd]⟩ ∧
      DataSet.get_names ⟨[ca, cb, cc, cd]⟩ = ["a", "b", "c", "d"] := by
  have hn1 : ¬ (cc.name ∈ DataSet.get_names ⟨[ca, cb]⟩) := by
    simp only [DataSet.get_names, List.map_cons, List.map_nil, ha, hb, hc]
    decide
  have hn2 : ¬ (cd.name ∈ DataSet.get_names ⟨[ca, cb, cc]⟩) := by
    simp only [DataSet.get_names, List.map_cons, List.map_nil, ha, hb, hc, hd]
    decide
  have h1 : DataSet.appendData ⟨[ca, cb]⟩ cc = .ok ⟨[ca, cb, cc]⟩ := by
    rw [DataSet.appendData, if_neg hn1]
    rfl
  have h2 : DataSet.appendData ⟨[ca, cb, cc]⟩ cd = .ok ⟨[ca, cb, cc, cd]⟩ := by
    rw [DataSet.appendData, if_neg hn2]
    rfl
  constructor
  · show appendChannels ⟨[ca, cb]⟩ [cc, cd] = .ok ⟨[ca, cb, cc, cd]⟩
    simp only [appendChannels, h1, h2]
  · simp only [DataSet.get_names, List.map_cons, List.map_nil, ha, hb, hc, hd]

/-- A concrete channel with a given name. -/
def chanNamed (n : String) : Data :=
  ⟨n, [[0]], [0], [true], 1, [.number], ["x"], .number, n⟩

/-- Witness for C5: concrete channels named a, b, c, d. -/
theorem append_dataset_order_witness :
    (chanNamed "a").name = "a" ∧ (chanNamed "b").name = "b" ∧
      (chanNamed "c").name = "c" ∧ (chanNamed "d").name = "d" ∧
      (DataSet.appendDataSet ⟨[chanNamed "a", chanNamed "b"]⟩ ⟨[chanNamed "c", chanNamed "d"]⟩ =
        .ok ⟨[chanNamed "a", chanNamed "b", chanNamed "c", chanNamed "d"]⟩ ∧
        DataSet.get_names ⟨[chanNamed "a", chanNamed "b", chanNamed "c", chanNamed "d"]⟩ =
          ["a", "b", "c", "d"]) :=
  ⟨rfl, rfl, rfl, rfl, append_dataset_order _ _ _ _ rfl rfl rfl rfl⟩

theorem getD_mem_of_lt {α : Type} :
    ∀ (l : List α) (i : Nat) (d : α), i < l.length → l.getD i d ∈ l := by
  intro l
  induction l with
  | nil => intro i d h; simp at h
  | cons a l ih =>
    intro i d h
    cases i with
    | zero => exact List.mem_cons_self _ _
    | succ i => exact List.mem_cons_of_mem a (ih i d (by simpa using h))

theorem index_agree_aux :
    ∀ (cs : List Data) (i : Nat), i < cs.length → (cs.map Data.name).Nodup →
      ∃ c, DataSet.index_by_position ⟨cs⟩ i = .ok c ∧
        DataSet.index_by_name ⟨cs⟩ ((cs.map Data.name).getD i "") = .ok c := by
  intro cs
  induction cs with
  | nil => intro i h; simp at h
  | cons c cs ih =>
    intro i hi hnd
    cases i with
    | zero =>
      refine ⟨c, rfl, ?_⟩
      show DataSet.index_by_name ⟨c :: cs⟩ c.name = .ok c
      unfold DataSet.index_by_name
      rw [List.find?_cons_of_pos _ (by simp)]
    | succ i =>
      have hi' : i < cs.length := by simpa using hi
      obtain ⟨hhead, htail⟩ := List.nodup_cons.mp hnd
      obtain ⟨c0, hp, hn⟩ := ih i hi' htail
      have htm : (cs.map Data.name).getD i "" ∈ cs.map Data.name :=
        getD_mem_of_lt _ i "" (by simpa using hi')
      have hneq : ¬ ((c.name == (cs.map Data.name).getD i "") = true) := by
        simp only [beq_iff_eq]
        intro hcontra
        exact hhead (hcontra ▸ htm)
      have hp' : DataSet.index_by_position ⟨c :: cs⟩ (i + 1) = .ok c0 := by
        unfold DataSet.index_by_position at hp ⊢
        dsimp only at hp ⊢
        rw [List.get?_cons_succ]
        cases hg : cs.get? i with
        | none => rw [hg] at hp; cases hp
        | some x =>
          rw [hg] at hp
          dsimp only at hp ⊢
          exact hp
      have hn' : DataSet.index_by_name ⟨c :: cs⟩
          (((c :: cs).map Data.name).getD (i + 1) "") = .ok c0 := by
        simp only [List.map_cons, List.getD_cons_succ]
        unfold DataSet.index_by_name at hn ⊢
        dsimp only at hn ⊢
        have hbeq : (c.name == (cs.map Data.name).getD i "") = false := by
          cases hb : (c.name == (cs.map Data.name).getD i "") with
          | false => rfl
          | true => exact absurd hb hneq
        have hfind : List.find?
            (fun x : Data => x.name == (cs.map Data.name).getD i "") (c :: cs) =
            List.find? (fun x : Data => x.name == (cs.map Data.name).getD i "") cs := by
          simp only [List.find?, hbeq]
        rw [hfind]
        exact hn
      exact ⟨c0, hp', hn'⟩

/-- C9: for every dataset with unique channel names (the data-model
invariant) and every valid position `i`, indexing by position `i` and
indexing by the `i`-th name of `get_names` return the same channel. -/
theorem index_position_name_agree (ds : DataSet) (i : Nat)
    (hi : i < ds.channels.length) (hnd : ds.get_names.Nodup) :
    ∃ c, ds.index_by_position i = .ok c ∧
      ds.index_by_name (ds.get_names.getD i "") = .ok c := by
  obtain ⟨cs⟩ := ds
  exact index_agree_aux cs i hi hnd

/-- Witness for C9: position 1 of a two-channel dataset. -/
theorem index_position_name_agree_witness :
    1 < (DataSet.mk [chanNamed "a", chanNamed "b"]).channels.length ∧
      (DataSet.get_names ⟨[chanNamed "a", chanNamed "b"]⟩).Nodup ∧
      ∃ c, DataSet.index_by_position ⟨[chanNamed "a", chanNamed "b"]⟩ 1 = .ok c ∧
        DataSet.index_by_name ⟨[chanNamed "a", chanNamed "b"]⟩
          ((DataSet.get_names ⟨[chanNamed "a", chanNamed "b"]⟩).getD 1 "") = .ok c :=
  ⟨by decide, by decide,
    index_position_name_agree ⟨[chanNamed "a", chanNamed "b"]⟩ 1 (by decide) (by decide)⟩

/-- C6: `parse_column` applies the formatter's parse to each element; if
every element parses it returns the full numeric sequence, one value per
element; if any element is unparseable, the first such element aborts the
whole column with a `FormatError` naming that row and value, and no
partial numeric sequence is returned. -/
theorem parse_column_all_or_nothing (f : Formatter) (vs : List RawValue) :
    ((∀ v ∈ vs, (f.parse v).isSome = true) →
      ∃ qs, parse_column f vs = .ok qs ∧
        List.Forall₂ (fun v q => f.parse v = some q) vs qs) ∧
    (∀ i v, vs.get? i = some v → f.parse v = none →
      (∀ j < i, ∀ w, vs.get? j = some w → (f.parse w).isSome = true) →
      parse_column f vs = .error (.formatError i v)) := by
  constructor
  · exact parseColumnFrom_ok f vs 0
  · intro i v hv hn hfirst
    have h := parseColumnFrom_err f vs 0 i v hv hn hfirst
    simpa using h

/-- Witness for C6: the value `not-a-date` under an explicitly forced
date/time formatter override fails the whole column at row 0. -/
theorem parse_column_all_or_nothing_witness :
    resolveFormatter [("Date", .dateTime)] ⟨"Date", .unknown, [.text "not-a-date"]⟩ =
      .dateTime ∧
    Formatter.dateTime.parse (.text "not-a-date") = none ∧
    parse_column .dateTime [.text "not-a-date"] =
      .error (.formatError 0 (.text "not-a-date")) := by
  have hpn : Formatter.dateTime.parse (.text "not-a-date") = none := by decide
  exact ⟨rfl, hpn,
    (parse_column_all_or_nothing .dateTime [.text "not-a-date"]).2 0 (.text "not-a-date") rfl
      hpn (fun j hj => absurd hj (Nat.not_lt_zero j))⟩

theorem forall₂_exists_left {α β : Type} {R : α → β → Prop} :
    ∀ {l₁ : List α} {l₂ : List β}, List.Forall₂ R l₁ l₂ → ∀ b ∈ l₂, ∃ a ∈ l₁, R a b := by
  intro l₁ l₂ h
  induction h with
  | nil => simp
  | @cons a b as bs hR hall ih =>
    intro x hx
    rcases List.mem_cons.mp hx with rfl | hx'
    · exact ⟨a, List.mem_cons_self a as, hR⟩
    · obtain ⟨a', ha', hr⟩ := ih x hx'
      exact ⟨a', List.mem_cons_of_mem a ha', hr⟩

theorem build_X_same (t : Table) (xsels : List ColSel) (y₁ y₂ : ColSel)
    (formats : List (String × Formatter)) (d₁ d₂ : Data)
    (h₁ : build t xsels y₁ formats = .ok d₁) (h₂ : build t xsels y₂ formats = .ok d₂) :
    d₁.X = d₂.X := by
  obtain ⟨xc₁, yc₁, xv₁, yv₁, hr₁, _, _, hp₁, _, hd₁⟩ := build_ok_elim t xsels y₁ formats d₁ h₁
  obtain ⟨xc₂, yc₂, xv₂, yv₂, hr₂, _, _, hp₂, _, hd₂⟩ := build_ok_elim t xsels y₂ formats d₂ h₂
  have hxc : xc₁ = xc₂ := by
    rw [hr₁] at hr₂
    cases hr₂
    rfl
  subst hxc
  have hxv : xv₁ = xv₂ := by
    rw [hp₁] at hp₂
    cases hp₂
    rfl
  subst hxv
  rw [hd₁, hd₂]

theorem loadChannels_spec (t : Table) (xsels : List ColSel)
    (formats : List (String × Formatter)) :
    ∀ (ysels : List ColSel) (ds0 ds : DataSet),
      loadChannels t xsels formats ysels ds0 = .ok ds →
      ∃ newcs, ds.channels = ds0.channels ++ newcs ∧
        List.Forall₂ (fun y c => build t xsels y formats = .ok c) ysels newcs := by
  intro ysels
  induction ysels with
  | nil =>
    intro ds0 ds h
    cases h
    exact ⟨[], by simp, List.Forall₂.nil⟩
  | cons y ys ih =>
    intro ds0 ds h
    simp only [loadChannels] at h
    cases hb : build t xsels y formats with
    | error e => rw [hb] at h; cases h
    | ok d =>
      rw [hb] at h
      dsimp only at h
      cases happ : ds0.appendData d with
      | error e => rw [happ] at h; cases h
      | ok ds1 =>
        rw [happ] at h
        dsimp only at h
        obtain ⟨newcs, hchan, hall⟩ := ih ds1 ds h
        have hds1 : ds1.channels = ds0.channels ++ [d] := by
          by_cases hdup : d.name ∈ ds0.get_names
          · rw [DataSet.appendData, if_pos hdup] at happ; cases happ
          · rw [DataSet.appendData, if_neg hdup] at happ
            cases happ
            rfl
        refine ⟨d :: newcs, ?_, List.Forall₂.cons hb hall⟩
        rw [hchan, hds1, List.append_assoc, List.singleton_append]

/-- C7: a table load whose `y_col` lists `k` output selectors (all
sharing `x_cols`) yields a dataset of `k` channels in the given order,
each named after its resolved output column, with `get_output_dims = k`
and all channels reporting identical `X`. -/
theorem load_multi_output (t : Table) (xsels ysels : List ColSel)
    (formats : List (String × Formatter)) (ds : DataSet)
    (h : LoadDataFrame t xsels ysels formats = .ok ds) :
    ds.get_output_dims = ysels.length ∧
      (∀ c₁ ∈ ds.channels, ∀ c₂ ∈ ds.channels, c₁.X = c₂.X) ∧
      List.Forall₂ (fun y c => ∃ ycol, t.find y = some ycol ∧ c.name = ycol.name)
        ysels ds.channels := by
  obtain ⟨newcs, hchan, hall⟩ := loadChannels_spec t xsels formats ysels ⟨[]⟩ ds h
  have hchan' : ds.channels = newcs := by simpa using hchan
  refine ⟨?_, ?_, ?_⟩
  · rw [DataSet.get_output_dims, hchan']
    exact hall.length_eq.symm
  · intro c₁ h₁ c₂ h₂
    rw [hchan'] at h₁ h₂
    obtain ⟨y₁, _, hb₁⟩ := forall₂_exists_left hall c₁ h₁
    obtain ⟨y₂, _, hb₂⟩ := forall₂_exists_left hall c₂ h₂
    exact build_X_same t xsels y₁ y₂ formats c₁ c₂ hb₁ hb₂
  · rw [hchan']
    refine List.Forall₂.imp ?_ hall
    intro y c hb
    obtain ⟨_, yc, _, _, _, hy, _, _, _, hd⟩ := build_ok_elim t xsels y formats c hb
    exact ⟨yc, hy, by rw [hd]⟩

/-- Witness for C7: a three-column table loaded with two output columns. -/
theorem load_multi_output_witness :
    ∃ ds,
      LoadDataFrame ⟨[⟨"t", .number, [.num 0, .num 1]⟩, ⟨"a", .number, [.num 1, .num 2]⟩,
          ⟨"b", .number, [.num 3, .num 4]⟩]⟩ [.byPos 0] [.byName "a", .byName "b"] [] =
        .ok ds ∧
      ds.get_output_dims = 2 ∧ (∀ c₁ ∈ ds.channels, ∀ c₂ ∈ ds.channels, c₁.X = c₂.X) := by
  obtain ⟨ds, h⟩ : ∃ ds,
      LoadDataFrame ⟨[⟨"t", .number, [.num 0, .num 1]⟩, ⟨"a", .number, [.num 1, .num 2]⟩,
          ⟨"b", .number, [.num 3, .num 4]⟩]⟩ [.byPos 0] [.byName "a", .byName "b"] [] =
        .ok ds := ⟨_, rfl⟩
  have hout := load_multi_output _ _ _ _ ds h
  exact ⟨ds, h, hout.1.trans rfl, hout.2.1⟩

/-- Every value of a selected column parses under that column's resolved
formatter (vacuously true when the selector does not resolve). -/
def selectedColParses (formats : List (String × Formatter)) : Option Column → Bool
  | none => true
  | some c => c.values.all (fun v => ((resolveFormatter formats c).parse v).isSome)

/-- C8 (amended): `build` fails with `ColumnNotFoundError` when an x or y
selector does not resolve, fails with `EmptyDataError` when all selectors
resolve but the table has zero rows, and otherwise — provided every
selected value parses under its resolved formatter — constructs the
channel; the embedding is purely functional, so the source table is never
modified. -/
theorem build_error_conditions (t : Table) (xsels : List ColSel) (ysel : ColSel)
    (formats : List (String × Formatter)) :
    (((∃ s ∈ xsels, t.find s = none) ∨ t.find ysel = none) →
      ∃ s, t.find s = none ∧ build t xsels ysel formats = .error (.columnNotFound s)) ∧
    ((∀ s ∈ xsels, (t.find s).isSome = true) → t.find ysel ≠ none → t.numRows = 0 →
      build t xsels ysel formats = .error .emptyData) ∧
    ((∀ s ∈ xsels, (t.find s).isSome = true) → t.find ysel ≠ none → t.numRows ≠ 0 →
      (∀ s ∈ xsels, selectedColParses formats (t.find s) = true) →
      selectedColParses formats (t.find ysel) = true →
      ∃ d, build t xsels ysel formats = .ok d) := by
  refine ⟨?_, ?_, ?_⟩
  · intro hcase
    by_cases hx : ∃ s ∈ xsels, t.find s = none
    · obtain ⟨s, hsn, hserr⟩ := resolveCols_err t xsels hx
      exact ⟨s, hsn, build_resolve_err t xsels ysel formats _ hserr⟩
    · have hxall : ∀ s ∈ xsels, (t.find s).isSome = true := by
        intro s hs
        cases hfs : t.find s with
        | none => exact absurd ⟨s, hs, hfs⟩ hx
        | some c => rfl
      have hy : t.find ysel = none := by
        rcases hcase with hl | hr
        · exact absurd hl hx
        · exact hr
      obtain ⟨xcols, hxc, _⟩ := resolveCols_ok t xsels hxall
      exact ⟨ysel, hy, build_yfind_none t xsels ysel formats xcols hxc hy⟩
  · intro hxall hy hn
    obtain ⟨xcols, hxc, _⟩ := resolveCols_ok t xsels hxall
    cases hfy : t.find ysel with
    | none => exact absurd hfy hy
    | some ycol => exact build_empty t xsels ysel formats xcols ycol hxc hfy hn
  · intro hxall hy hn hxparse hyparse
    obtain ⟨xcols, hxc, _⟩ := resolveCols_ok t xsels hxall
    cases hfy : t.find ysel with
    | none => exact absurd hfy hy
    | some ycol =>
      have hcols : ∀ c ∈ xcols, ∀ v ∈ c.values,
          ((resolveFormatter formats c).parse v).isSome = true := by
        intro c hc
        obtain ⟨s, hs, hfs⟩ := resolveCols_mem t xsels xcols hxc c hc
        have hsel := hxparse s hs
        rw [hfs] at hsel
        simpa [selectedColParses, List.all_eq_true] using hsel
      obtain ⟨xvals, hxv⟩ := parseCols_ok formats xcols hcols
      have hyvals : ∀ v ∈ ycol.values,
          ((resolveFormatter formats ycol).parse v).isSome = true := by
        rw [hfy] at hyparse
        simpa [selectedColParses, List.all_eq_true] using hyparse
      obtain ⟨yvals, hyv, _⟩ := parseColumnFrom_ok (resolveFormatter formats ycol)
        ycol.values 0 hyvals
      exact ⟨_, build_ok_intro t xsels ysel formats xcols ycol xvals yvals hxc hfy hn hxv hyv⟩

/-- Counterexample for C8 as literally stated: in this concrete table
every selector resolves and the table has a row, yet `build` does not
construct a channel — the unparseable text value in the output column
raises a `FormatError` instead. -/
theorem build_error_conditions_counterexample :
    (∀ s ∈ [ColSel.byName "a", ColSel.byName "b"],
      (Table.find ⟨[⟨"a", .number, [.num 1]⟩, ⟨"b", .number, [.text "x"]⟩]⟩ s).isSome = true) ∧
    Table.numRows ⟨[⟨"a", .number, [.num 1]⟩, ⟨"b", .number, [.text "x"]⟩]⟩ ≠ 0 ∧
    build ⟨[⟨"a", .number, [.num 1]⟩, ⟨"b", .number, [.text "x"]⟩]⟩ [.byName "a"]
      (.byName "b") [] = .error (.formatError 0 (.text "x")) ∧
    ∀ d, build ⟨[⟨"a", .number, [.num 1]⟩, ⟨"b", .number, [.text "x"]⟩]⟩ [.byName "a"]
      (.byName "b") [] ≠ .ok d := by
  have herr : build ⟨[⟨"a", .number, [.num 1]⟩, ⟨"b", .number, [.text "x"]⟩]⟩ [.byName "a"]
      (.byName "b") [] = .error (.formatError 0 (.text "x")) := rfl
  refine ⟨by decide, by decide, herr, ?_⟩
  intro d hd
  rw [herr] at hd
  cases hd

/-- Witness for C8 (amended): the selected columns are numeric and build
succeeds, even though an unselected column holds an unparseable value. -/
theorem build_error_conditions_witness :
    ∃ d, build ⟨[⟨"a", .number, [.num 1]⟩, ⟨"b", .number, [.num 2]⟩,
        ⟨"junk", .number, [.text "x"]⟩]⟩ [.byName "a"] (.byName "b") [] = .ok d :=
  (build_error_conditions ⟨[⟨"a", .number, [.num 1]⟩, ⟨"b", .number, [.num 2]⟩,
      ⟨"junk", .number, [.text "x"]⟩]⟩ [.byName "a"] (.byName "b") []).2.2
    (by decide) (by decide) (by decide) (by decide) (by decide)

/-- C10: loading a delimited file via `LoadCSV` (explicit names; the
separator handling that produces the cell rows is delegated to the
external collaborator) equals reading the same rows into a table with the
same names and loading that table via `LoadDataFrame` with its default
column selection — the two paths produce identical datasets (same
channels, X, Y, and names). -/
theorem loadcsv_refines_loaddataframe (rows : List (List RawValue)) (names : List String)
    (formats : List (String × Formatter)) :
    LoadCSV rows names formats =
      LoadDataFrame (readTable rows names) [.byPos 0] [.byPos 1] formats := by
  unfold LoadCSV LoadDataFrame loadChannels
  cases hb : build (readTable rows names) [.byPos 0] (.byPos 1) formats with
  | error e => rfl
  | ok d => rfl
